import Mathlib

set_option maxRecDepth 4000

/-!
Verification development for the tarkov-texture-converter repository
(`src/tarkov_texture_converter/`): a shallow embedding of the texture
classification and channel-transform pipeline (`processor.py`), the filename
helpers (`utils.py`), and the GLTF image-URI rewriting (`gltf_utils.py`),
together with theorems about the embedded definitions.

Strings are handled at the `List Char` level so that every operation is a
structural recursion the kernel can evaluate.  Python string primitives used
by the source (`str.lower`, `str.split`, `str.startswith`, `os.path.splitext`,
`os.path.basename`, `os.path.join`) are embedded one by one below; all inputs
of interest are ASCII, and `str.lower` is embedded as the ASCII lowering it
performs on such inputs.
-/

/-- ASCII lowering of one character, as `str.lower` acts on ASCII input. -/
def charLower (c : Char) : Char :=
  if 65 ≤ c.toNat ∧ c.toNat ≤ 90 then Char.ofNat (c.toNat + 32) else c

/-- Embedding of `str.lower` (ASCII fragment). -/
def strLower (s : String) : String :=
  ⟨s.data.map charLower⟩

/-- Embedding of `str.startswith` at the character-list level. -/
def startsWithL : List Char → List Char → Bool
  | _, [] => true
  | [], _ :: _ => false
  | a :: as, b :: bs => a == b && startsWithL as bs

/-- Embedding of `str.startswith`. -/
def strStartsWith (s pat : String) : Bool :=
  startsWithL s.data pat.data

/-- Embedding of `str.split(sep)` for a one-character separator: splits into
the (possibly empty) pieces between occurrences of `sep`. -/
def splitOnCharL (sep : Char) : List Char → List (List Char)
  | [] => [[]]
  | c :: cs =>
    let r := splitOnCharL sep cs
    if c == sep then [] :: r
    else
      match r with
      | [] => [[c]]
      | h :: t => (c :: h) :: t

/-- String-level wrapper for `splitOnCharL`. -/
def strSplitOnChar (sep : Char) (s : String) : List String :=
  (splitOnCharL sep s.data).map (fun cs => ⟨cs⟩)

/-- The base part of `os.path.splitext` on a path-separator-free name, at the
character-list level (CPython `genericpath._splitext`): the extension starts at
the last dot, except that a run of leading dots never starts an extension. -/
def splitextBaseL (cs : List Char) : List Char :=
  let pre := cs.takeWhile (fun c => c == '.')
  let rest := cs.drop pre.length
  if rest.any (fun c => c == '.') then
    pre ++ (((rest.reverse.dropWhile (fun c => c != '.')).drop 1).reverse)
  else cs

/-- `os.path.splitext(s)[0]` for a separator-free name. -/
def splitextBase (s : String) : String :=
  ⟨splitextBaseL s.data⟩

/-- `os.path.splitext(s)[1]` for a separator-free name. -/
def splitextExt (s : String) : String :=
  ⟨s.data.drop (splitextBaseL s.data).length⟩

/-- Embedding of `os.path.basename` (POSIX separators): the part after the
last slash. -/
def basenameStr (p : String) : String :=
  (strSplitOnChar '/' p).getLastD p

/-- Embedding of `os.path.join(a, b)` (POSIX): an absolute second component
wins; otherwise the components are glued with a single slash. -/
def joinPath (a b : String) : String :=
  if strStartsWith b "/" then b
  else if a = "" then b
  else if a.data.getLast? = some '/' then a ++ b
  else a ++ "/" ++ b

/-- `utils.insert_suffix`: inserts `suffix` into `filename` before its
extension, prepending an underscore when the suffix does not carry one. -/
def insertSuffix (filename suffix : String) : String :=
  let base := splitextBase filename
  let ext := splitextExt filename
  let suffix :=
    if base ≠ "" ∧ suffix ≠ "" ∧ ¬ strStartsWith suffix "_" then "_" ++ suffix
    else suffix
  base ++ suffix ++ ext

/-- `constants.TextureType`. -/
inductive TextureType where
  | NORMAL
  | DIFFUSE
  | GLOSS
  | SPECGLOS
deriving DecidableEq

/-- `constants.SUPPORTED_FORMATS`. -/
def SUPPORTED_FORMATS : List String :=
  [".png", ".jpg", ".jpeg", ".tif", ".tiff", ".bmp", ".tga"]

/-- Normal-map tokens recognised by `TextureProcessor._get_texture_type`. -/
def nTokens : List String := ["n", "normal", "nrm"]

/-- Diffuse-map tokens recognised by `TextureProcessor._get_texture_type`. -/
def dTokens : List String := ["d", "diff", "diffuse", "albedo"]

/-- Gloss-map tokens recognised by `TextureProcessor._get_texture_type`. -/
def gTokens : List String := ["g", "gloss", "gls"]

/-- Specular-glossiness tokens recognised by
`TextureProcessor._get_texture_type`. -/
def sgTokens : List String := ["sg", "specglos"]

/-- The token loop of `TextureProcessor._get_texture_type` (`processor.py`
lines 64-74): the tokens arrive already reversed, the first match returns,
and exhaustion falls back to `None` (Tarkin) or `NORMAL` (standard). -/
def classifyParts (tarkinMode : Bool) : List String → Option TextureType
  | [] => if tarkinMode then none else some TextureType.NORMAL
  | p :: rest =>
    if nTokens.contains p then some TextureType.NORMAL
    else if dTokens.contains p then some TextureType.DIFFUSE
    else if gTokens.contains p then
      (if tarkinMode then none else some TextureType.GLOSS)
    else if sgTokens.contains p then
      (if tarkinMode then some TextureType.SPECGLOS else none)
    else classifyParts tarkinMode rest

/-- `TextureProcessor._get_texture_type(filename, tarkin_mode)`:
strip the extension, lower-case, split on underscores, and scan the tokens
from the last toward the first. -/
def getTextureType (filename : String) (tarkinMode : Bool) : Option TextureType :=
  let baseName := strLower (splitextBase filename)
  let parts := strSplitOnChar '_' baseName
  classifyParts tarkinMode parts.reverse

/-- Whether a token belongs to any of the four recognised token sets
(reference formulation, from the claim text). -/
def isRoleToken (t : String) : Bool :=
  nTokens.contains t || dTokens.contains t || gTokens.contains t || sgTokens.contains t

/-- The role a single matching token decides (reference formulation, from the
claim text): `n`-tokens give Normal, `d`-tokens Diffuse, `g`-tokens Gloss in
standard mode and None in Tarkin mode, `sg`-tokens SpecGlos in Tarkin mode and
None in standard mode. -/
def tokenRole (tarkinMode : Bool) (t : String) : Option TextureType :=
  if nTokens.contains t then some TextureType.NORMAL
  else if dTokens.contains t then some TextureType.DIFFUSE
  else if gTokens.contains t then
    (if tarkinMode then none else some TextureType.GLOSS)
  else if sgTokens.contains t then
    (if tarkinMode then some TextureType.SPECGLOS else none)
  else none

/-- Reference classifier, written from the claim's words: strip the
extension, lower-case, split on underscores, scan tokens from the last toward
the first, return the role of the first matching token; if no token matches,
standard mode returns Normal and Tarkin mode returns None. -/
def classifyReference (filename : String) (tarkinMode : Bool) : Option TextureType :=
  let tokens := (strSplitOnChar '_' (strLower (splitextBase filename))).reverse
  match tokens.find? isRoleToken with
  | some t => tokenRole tarkinMode t
  | none => if tarkinMode then none else some TextureType.NORMAL

/-- A numpy `uint8` image as the processor sees it: `channels` is
`shape[2]` and `rows` holds the pixel grid, each pixel a list of channel
values.  Channel values are `Nat`s; a `uint8` array only ever holds values
below 256, and no transform below can overflow on such values. -/
structure NpImage where
  channels : Nat
  rows : List (List (List Nat))
deriving DecidableEq

/-- The pixel at row `i`, column `j`, when present. -/
def NpImage.px? (img : NpImage) (i j : Nat) : Option (List Nat) :=
  (img.rows[i]?).bind (fun row => row[j]?)

/-- A raw image as `cv2.imread`/`cv2.imdecode` deliver it before channel
canonicalisation: either a two-dimensional grayscale array or a
three-dimensional array with the stated channel count (OpenCV stores colour
channels in BGR(A) order). -/
inductive RawImage where
  | gray (rows : List (List Nat))
  | multi (channels : Nat) (rows : List (List (List Nat)))

/-- `cv2.cvtColor(·, cv2.COLOR_GRAY2RGBA)` on one sample. -/
def cvtGray2RGBA (v : Nat) : List Nat := [v, v, v, 255]

/-- `cv2.cvtColor(·, cv2.COLOR_BGR2RGBA)` on one pixel. -/
def cvtBGR2RGBA (px : List Nat) : List Nat :=
  [px.getD 2 0, px.getD 1 0, px.getD 0 0, 255]

/-- `cv2.cvtColor(·, cv2.COLOR_BGRA2RGBA)` on one pixel. -/
def cvtBGRA2RGBA (px : List Nat) : List Nat :=
  [px.getD 2 0, px.getD 1 0, px.getD 0 0, px.getD 3 0]

/-- The canonicalisation half of `TextureProcessor._load_image`
(`processor.py` lines 92-98): grayscale and 3- or 4-channel inputs become
4-channel RGBA, any other channel count is rejected. -/
def loadImage : RawImage → Option NpImage
  | RawImage.gray rows => some ⟨4, rows.map (List.map cvtGray2RGBA)⟩
  | RawImage.multi 3 rows => some ⟨4, rows.map (List.map cvtBGR2RGBA)⟩
  | RawImage.multi 4 rows => some ⟨4, rows.map (List.map cvtBGRA2RGBA)⟩
  | RawImage.multi _ _ => none

/-- `cv2.cvtColor(·, cv2.COLOR_RGB2RGBA)` followed by forcing the new alpha
channel to 255, as the 3-channel branches of the transforms do. -/
def rgbToRgbaFull (img : NpImage) : NpImage :=
  ⟨4, img.rows.map (List.map (fun px => px ++ [255]))⟩

/-- The per-pixel map of `TextureProcessor._process_normal_map_standard`:
output red is the input alpha, green is kept, blue and alpha become 255. -/
def pxNormalStd (px : List Nat) : List Nat :=
  [px.getD 3 0, px.getD 1 0, 255, 255]

/-- `TextureProcessor._process_normal_map_standard` (`processor.py` lines
103-116): 4-channel input is remapped pixel-for-pixel; 3-channel input is
first expanded to RGBA with alpha 255; anything else is returned unchanged. -/
def processNormalMapStandard (img : NpImage) : NpImage :=
  if img.channels = 4 then ⟨4, img.rows.map (List.map pxNormalStd)⟩
  else if img.channels = 3 then
    ⟨4, (rgbToRgbaFull img).rows.map (List.map pxNormalStd)⟩
  else img

/-- `TextureProcessor._process_normal_map_tarkin`: passthrough with the alpha
channel forced to 255 (3-channel input is expanded first). -/
def processNormalMapTarkin (img : NpImage) : NpImage :=
  if img.channels = 4 then
    ⟨4, img.rows.map (List.map (fun px => px.take 3 ++ [255]))⟩
  else if img.channels = 3 then rgbToRgbaFull img
  else img

/-- The `color_only` buffer of the diffuse transforms: RGB passthrough with
alpha forced to 255 (`np.dstack((img[:, :, :3], 255))`). -/
def diffuseColor (img : NpImage) : NpImage :=
  ⟨4, img.rows.map (List.map (fun px => px.take 3 ++ [255]))⟩

/-- The `alpha_map` buffer of the standard diffuse transform: the original
alpha broadcast to R, G and B, with alpha 255. -/
def diffuseAlpha (img : NpImage) : NpImage :=
  ⟨4, img.rows.map (List.map (fun px => [px.getD 3 0, px.getD 3 0, px.getD 3 0, 255]))⟩

/-- `np.any(alpha_channel < 255)`: some pixel has alpha strictly below 255. -/
def hasTranslucent (img : NpImage) : Bool :=
  img.rows.any (fun row => row.any (fun px => px.getD 3 0 < 255))

/-- `TextureProcessor._process_diffuse_map_standard` (`processor.py` lines
127-139), with the `ValueError` of the final branch as an `Except.error`. -/
def processDiffuseMapStandard (img : NpImage) :
    Except String (NpImage × Option NpImage) :=
  if img.channels = 4 then
    Except.ok (diffuseColor img,
      if hasTranslucent img then some (diffuseAlpha img) else none)
  else if img.channels = 3 then Except.ok (rgbToRgbaFull img, none)
  else Except.error ("Cannot process diffuse map with " ++
    toString img.channels ++ " channels.")

/-- `TextureProcessor._process_diffuse_map_tarkin`. -/
def processDiffuseMapTarkin (img : NpImage) : Except String NpImage :=
  if img.channels = 4 then Except.ok (diffuseColor img)
  else if img.channels = 3 then Except.ok (rgbToRgbaFull img)
  else Except.error ("Cannot process Tarkin diffuse map with " ++
    toString img.channels ++ " channels.")

/-- `TextureProcessor._process_gloss_map`: channel-wise inversion of RGB, the
inverted red broadcast to a grayscale roughness triple with alpha 255. -/
def processGlossMap (img : NpImage) : Except String NpImage :=
  if img.channels < 3 then
    Except.error ("Gloss map processing expects at least 3 channels, got " ++
      toString img.channels ++ ".")
  else
    let img := if img.channels = 3 then rgbToRgbaFull img else img
    Except.ok ⟨4, img.rows.map (List.map (fun px =>
      [255 - px.getD 0 0, 255 - px.getD 0 0, 255 - px.getD 0 0, 255]))⟩

/-- The `specular` buffer of `TextureProcessor._process_specglos_map_split`:
RGB passthrough with alpha forced to 255. -/
def specglosSpec (img : NpImage) : NpImage :=
  ⟨4, img.rows.map (List.map (fun px => px.take 3 ++ [255]))⟩

/-- The `roughness` buffer of `TextureProcessor._process_specglos_map_split`:
the inverted alpha broadcast to a grayscale triple with alpha 255. -/
def specglosRough (img : NpImage) : NpImage :=
  ⟨4, img.rows.map (List.map (fun px =>
    [255 - px.getD 3 0, 255 - px.getD 3 0, 255 - px.getD 3 0, 255]))⟩

/-- `TextureProcessor._process_specglos_map_split` (`processor.py` lines
162-168): requires exactly 4 channels, else raises `ValueError`. -/
def processSpecglosMapSplit (img : NpImage) :
    Except String (NpImage × NpImage) :=
  if img.channels = 4 then Except.ok (specglosSpec img, specglosRough img)
  else Except.error ("SPECGLOS map processing requires 4 channels, got " ++
    toString img.channels ++ ".")

/-- The result tuple of `TextureProcessor.process_texture_return_data`:
status, base name, optional map of output-kind tags to buffers (an
insertion-ordered association list, as a Python dict), optional message. -/
abbrev WorkerResult :=
  String × String × Option (List (String × NpImage)) × Option String

/-- The filesystem as the worker sees it: what `cv2.imread`/`imdecode`
deliver for each input path (`none` when the bytes fail to decode). -/
abbrev RawFs := String → Option RawImage

/-- `TextureProcessor.process_texture_return_data(input_path, tarkin_mode)`
(`processor.py` lines 194-227): load first, then classify, then apply the
role- and mode-appropriate transform; a `ValueError` raised by a transform is
caught by the enclosing `except` and becomes a `failed` outcome.  The
unknown-texture-type fallback of the source is unreachable here because
`TextureType` is matched exhaustively. -/
def processTextureReturnData (fs : RawFs) (tarkinMode : Bool)
    (inputPath : String) : WorkerResult :=
  let filename := basenameStr inputPath
  let baseName := splitextBase filename
  match (fs inputPath).bind loadImage with
  | none => ("failed", baseName, none, some ("Failed to load image " ++ filename))
  | some img =>
    match getTextureType filename tarkinMode with
    | none => ("skipped", baseName, none, some ("Skipped " ++ filename ++ " (suffix/mode)"))
    | some TextureType.DIFFUSE =>
      if tarkinMode then
        match processDiffuseMapTarkin img with
        | Except.ok c => ("success", baseName, some [("color", c)], none)
        | Except.error e => ("failed", baseName, none, some ("Processing error: " ++ e))
      else
        match processDiffuseMapStandard img with
        | Except.ok (c, aOpt) =>
          ("success", baseName,
            some ([("color", c)] ++
              (match aOpt with
               | some a => [("alpha", a)]
               | none => [])), none)
        | Except.error e => ("failed", baseName, none, some ("Processing error: " ++ e))
    | some TextureType.SPECGLOS =>
      match processSpecglosMapSplit img with
      | Except.ok (sp, ro) =>
        ("success", baseName, some [("spec", sp), ("roughness", ro)], none)
      | Except.error e => ("failed", baseName, none, some ("Processing error: " ++ e))
    | some TextureType.NORMAL =>
      ("success", baseName,
        some [("converted",
          if tarkinMode then processNormalMapTarkin img
          else processNormalMapStandard img)], none)
    | some TextureType.GLOSS =>
      match processGlossMap img with
      | Except.ok r => ("success", baseName, some [("roughness", r)], none)
      | Except.error e => ("failed", baseName, none, some ("Processing error: " ++ e))

/-- The result-collection loop of `TextureProcessor.process_all`
(`processor.py` lines 301-319), over a given completion order: collects the
worker results, bumps exactly one of the three counters per file, and fires
one progress event `(processed_files_count, total_files)` per file. -/
def stageLoop (fs : RawFs) (tarkinMode : Bool) (total : Nat) :
    Nat → List String → List WorkerResult × Nat × Nat × Nat × List (Nat × Nat)
  | _, [] => ([], 0, 0, 0, [])
  | done, p :: rest =>
    let r := processTextureReturnData fs tarkinMode p
    let t := stageLoop fs tarkinMode total (done + 1) rest
    (r :: t.1,
     (if r.1 = "success" then t.2.1 + 1 else t.2.1),
     (if r.1 = "failed" then t.2.2.1 + 1 else t.2.2.1),
     (if r.1 = "skipped" then t.2.2.2.1 + 1 else t.2.2.2.1),
     (done + 1, total) :: t.2.2.2.2)

/-- The tag-to-suffix table of `TextureProcessor.save_processed_data`
(`processor.py` lines 240-245); an unknown tag hits `continue`. -/
def keySuffix (k : String) : Option String :=
  if k = "color" then some "_color"
  else if k = "alpha" then some "_alpha"
  else if k = "spec" then some "_spec"
  else if k = "roughness" then some "_roughness"
  else if k = "converted" then some "_converted"
  else none

/-- The save tasks one worker result contributes (`processor.py` lines
237-249): only `success` results with a non-empty data dict contribute, one
task `(buffer, output_path, compression)` per recognised tag. -/
def saveTasksOfResult (outFolder : String) (compression : Nat)
    (r : WorkerResult) : List (NpImage × String × Nat) :=
  if r.1 = "success" then
    match r.2.2.1 with
    | some d =>
      if d = [] then []
      else d.flatMap (fun kv =>
        match keySuffix kv.1 with
        | some suf =>
          [(kv.2, joinPath outFolder (insertSuffix (r.2.1 ++ ".png") suf), compression)]
        | none => [])
    | none => []
  else []

/-- The save loop of `TextureProcessor.save_processed_data` (`processor.py`
lines 259-272) over a given completion order: `saveOk` tells which
`_save_image` calls succeed; returns (successful saves, failed saves,
progress events, paths written). -/
def saveLoop (saveOk : String → Bool) (total : Nat) :
    Nat → List (NpImage × String × Nat) → Nat × Nat × List (Nat × Nat) × List String
  | _, [] => (0, 0, [], [])
  | done, t :: ts =>
    let ok := saveOk t.2.1
    let u := saveLoop saveOk total (done + 1) ts
    ((if ok then u.1 + 1 else u.1),
     (if ok then u.2.1 else u.2.1 + 1),
     (done + 1, total) :: u.2.2.1,
     (if ok then t.2.1 :: u.2.2.2 else u.2.2.2))

/-- `TextureProcessor.save_processed_data` (`processor.py` lines 229-277):
builds the save tasks, returns immediately when there are none, otherwise
runs the save loop; progress events reach the caller's callback only when one
was supplied (`cbPresent`). -/
def saveProcessedData (outFolder : String) (compression : Nat)
    (results : List WorkerResult) (cbPresent : Bool) (saveOk : String → Bool) :
    (Nat × Nat) × List (Nat × Nat) × List String :=
  let tasks := results.flatMap (saveTasksOfResult outFolder compression)
  if tasks = [] then ((0, 0), [], [])
  else
    let u := saveLoop saveOk tasks.length 0 tasks
    ((u.1, u.2.1), (if cbPresent then u.2.2.1 else []), u.2.2.2)

/-- A directory entry as `os.scandir` yields it. -/
structure DirEntry where
  name : String
  isFile : Bool

/-- The discovery stage of `TextureProcessor.process_all` (`processor.py`
lines 283-287): keep regular files that are not hidden and whose lower-cased
extension is supported, and join them onto the input folder. -/
def discover (inputFolder : String) (entries : List DirEntry) : List String :=
  (entries.filter (fun e =>
    e.isFile && !(strStartsWith e.name ".") &&
      SUPPORTED_FORMATS.contains (splitextExt (strLower e.name)))).map
    (fun e => joinPath inputFolder e.name)

/-- `constants.PNG_COMPRESSION_DEFAULT` / `PNG_COMPRESSION_OPTIMIZED`
selected by the `png_optimize` flag, as in `TextureProcessor.__init__`. -/
def pngCompression (pngOptimize : Bool) : Nat :=
  if pngOptimize then 9 else 0

/-- Everything observable about one `TextureProcessor.process_all` run:
the returned tally, the progress events delivered to the supplied callback in
the processing and the saving stage, the save-task target paths, the paths
actually written, and the save stage's internal (saved, failed) counts. -/
structure RunResult where
  tally : Nat × Nat × Nat
  processEvents : List (Nat × Nat)
  saveEvents : List (Nat × Nat)
  taskPaths : List String
  writtenPaths : List String
  saveTally : Nat × Nat
deriving DecidableEq

/-- `TextureProcessor.process_all` (`processor.py` lines 279-326) over an
explicit completion order for the worker futures: discovery, the processing
loop, then — only when at least one file succeeded — the save stage, which is
always invoked with `progress_callback=None`, so the supplied callback never
receives saving-stage events.  Returns the (successful, failed, skipped)
tally over input files. -/
def runPipeline (fs : RawFs) (tarkinMode : Bool) (inputFolder : String)
    (entries : List DirEntry) (outputFolder : String) (order : List String)
    (cbPresent : Bool) (compression : Nat) (saveOk : String → Bool) : RunResult :=
  let files := discover inputFolder entries
  if files = [] then ⟨(0, 0, 0), [], [], [], [], (0, 0)⟩
  else
    let t := stageLoop fs tarkinMode files.length 0 order
    let tasks := t.1.flatMap (saveTasksOfResult outputFolder compression)
    let save :=
      if t.2.1 > 0 then saveProcessedData outputFolder compression t.1 false saveOk
      else ((0, 0), [], [])
    ⟨(t.2.1, t.2.2.1, t.2.2.2.1), (if cbPresent then t.2.2.2.2 else []), save.2.1,
      tasks.map (fun u => u.2.1), save.2.2, save.1⟩

/-- The per-image URI computation of `gltf_utils.update_gltf_files`
(`gltf_utils.py` lines 40-52): skip empty and `data:` URIs, classify the
URI's basename in Tarkin mode, build the new basename with `insert_suffix`
plus an appended `".png"`, and join it onto the output folder's basename. -/
def computeNewUri (outputFolderBasename : String) (oldUri : String) :
    Option String :=
  if oldUri = "" then none
  else if strStartsWith oldUri "data:" then none
  else
    let oldUriNorm : String := ⟨oldUri.data.map (fun c => if c == '\\' then '/' else c)⟩
    let oldFilename := basenameStr oldUriNorm
    let newUriBase :=
      match getTextureType oldFilename true with
      | some TextureType.DIFFUSE => insertSuffix oldFilename "_color" ++ ".png"
      | some TextureType.SPECGLOS => insertSuffix oldFilename "_roughness" ++ ".png"
      | some TextureType.NORMAL => insertSuffix oldFilename "_converted" ++ ".png"
      | _ => ""
    if newUriBase ≠ "" then
      some ⟨(joinPath outputFolderBasename newUriBase).data.map
        (fun c => if c == '\\' then '/' else c)⟩
    else none

/-- The remap-recording step (`gltf_utils.py` lines 53-57): the new URI is
recorded only when it differs from the current one. -/
def imageRemap (outputFolderBasename : String) (oldUri : String) :
    Option String :=
  match computeNewUri outputFolderBasename oldUri with
  | some newUri => if oldUri ≠ newUri then some newUri else none
  | none => none

/-- Raw bytes of a fully opaque one-pixel 4-channel image. -/
def rawFull : RawImage := RawImage.multi 4 [[[1, 2, 3, 255]]]

/-- Two discovered entries whose filenames differ only in their extension. -/
def entriesDup : List DirEntry := [⟨"x_d.png", true⟩, ⟨"x_d.jpg", true⟩]

/-- Filesystem for the duplicate-stem scenario. -/
def fsDup : RawFs := fun p =>
  if p = "in/x_d.png" ∨ p = "in/x_d.jpg" then some rawFull else none

/-- `helmet_d.png` raw bytes: 4-channel, one pixel alpha 200, the rest 255. -/
def rawHelmetD : RawImage :=
  RawImage.multi 4 [[[10, 20, 30, 200], [11, 21, 31, 255]]]

/-- `helmet_n.png` raw bytes: 4-channel. -/
def rawHelmetN : RawImage := RawImage.multi 4 [[[40, 50, 60, 70]]]

/-- The end-to-end scenario's input folder listing. -/
def entriesHelmet : List DirEntry :=
  [⟨"helmet_d.png", true⟩, ⟨"helmet_n.png", true⟩]

/-- Filesystem for the end-to-end scenario. -/
def fsHelmet : RawFs := fun p =>
  if p = "in/helmet_d.png" then some rawHelmetD
  else if p = "in/helmet_n.png" then some rawHelmetN
  else none

/-- Filesystem on which every load fails. -/
def fsNone : RawFs := fun _ => none

/-- A one-entry folder listing. -/
def entriesOne : List DirEntry := [⟨"x_d.png", true⟩]

/-- A loaded 4-channel test image with one translucent pixel. -/
def imgW4 : NpImage := ⟨4, [[[3, 2, 1, 200]]]⟩

/-- Filesystem whose single file decodes (in BGRA order) to `imgW4`. -/
def fsW4 : RawFs := fun p =>
  if p = "t/x_d.png" then some (RawImage.multi 4 [[[1, 2, 3, 200]]]) else none

theorem px?_map_mk (c c2 : Nat) (rows : List (List (List Nat)))
    (f : List Nat → List Nat) (i j : Nat) :
    (NpImage.mk c (rows.map (List.map f))).px? i j =
      ((NpImage.mk c2 rows).px? i j).map f := by
  unfold NpImage.px?
  simp only [List.getElem?_map]
  cases rows[i]? with
  | none => rfl
  | some row => simp [List.getElem?_map]

theorem classifyParts_eq_find (tarkinMode : Bool) (parts : List String) :
    classifyParts tarkinMode parts =
      (match parts.find? isRoleToken with
       | some t => tokenRole tarkinMode t
       | none => if tarkinMode then none else some TextureType.NORMAL) := by
  induction parts with
  | nil => rfl
  | cons p rest ih =>
    by_cases h1 : p ∈ nTokens
    · simp [classifyParts, List.find?, isRoleToken, tokenRole, h1]
    · by_cases h2 : p ∈ dTokens
      · simp [classifyParts, List.find?, isRoleToken, tokenRole, h1, h2]
      · by_cases h3 : p ∈ gTokens
        · simp [classifyParts, List.find?, isRoleToken, tokenRole, h1, h2, h3]
        · by_cases h4 : p ∈ sgTokens
          · simp [classifyParts, List.find?, isRoleToken, tokenRole, h1, h2, h3, h4]
          · simp [classifyParts, List.find?, isRoleToken, h1, h2, h3, h4, ih]

/-- C1: for every filename and mode, the classifier
`TextureProcessor._get_texture_type` agrees with the reference definition
(strip extension, lower-case, split on underscores, scan tokens from the last
toward the first, first matching token decides the role, with the
mode-dependent fallback), and in particular `a_diff_n.png` classifies as
Normal in both modes — the rightmost matching token wins. -/
theorem C1_classifier_matches_reference :
    (∀ (filename : String) (tarkinMode : Bool),
      getTextureType filename tarkinMode = classifyReference filename tarkinMode) ∧
    getTextureType "a_diff_n.png" false = some TextureType.NORMAL ∧
    getTextureType "a_diff_n.png" true = some TextureType.NORMAL := by
  refine ⟨fun filename tarkinMode => ?_, by decide, by decide⟩
  exact classifyParts_eq_find tarkinMode
    ((strSplitOnChar '_' (strLower (splitextBase filename))).reverse)

/-- C2: on a 4-channel buffer the standard-mode normal transform keeps the
dimensions and maps every pixel (R,G,B,A) to exactly (A,G,255,255). -/
theorem C2_normal_standard_maps_pixels (img : NpImage) (h4 : img.channels = 4) :
    (processNormalMapStandard img).rows.length = img.rows.length ∧
    (∀ i : Nat, ((processNormalMapStandard img).rows[i]?).map (fun row => row.length) =
      (img.rows[i]?).map (fun row => row.length)) ∧
    (∀ i j r g b a, img.px? i j = some [r, g, b, a] →
      (processNormalMapStandard img).px? i j = some [a, g, 255, 255]) := by
  have heq : processNormalMapStandard img = ⟨4, img.rows.map (List.map pxNormalStd)⟩ := by
    simp [processNormalMapStandard, h4]
  rw [heq]
  refine ⟨by simp, fun i => ?_, fun i j r g b a hpx => ?_⟩
  · show ((img.rows.map (List.map pxNormalStd))[i]?).map (fun row => row.length) =
      (img.rows[i]?).map (fun row => row.length)
    rw [List.getElem?_map]
    cases hrow : img.rows[i]? with
    | none => rfl
    | some row => simp
  · rw [px?_map_mk 4 img.channels img.rows pxNormalStd i j]
    have : (NpImage.mk img.channels img.rows).px? i j = img.px? i j := rfl
    rw [this, hpx]
    rfl

/-- C2 witness: a concrete 4-channel pixel (1,2,3,4) becomes (4,2,255,255). -/
theorem C2_normal_standard_witness :
    (processNormalMapStandard ⟨4, [[[1, 2, 3, 4]]]⟩).px? 0 0 = some [4, 2, 255, 255] :=
  (C2_normal_standard_maps_pixels ⟨4, [[[1, 2, 3, 4]]]⟩ rfl).2.2 0 0 1 2 3 4 rfl

/-- C3: on a 4-channel buffer the SpecGlos split succeeds with exactly the
two buffers spec and roughness, where pixel (R,G,B,A) yields spec
(R,G,B,255) and roughness (255-A,255-A,255-A,255); on any channel count
other than 4 it fails with an error. -/
theorem C3_specglos_split (img : NpImage) (h4 : img.channels = 4) :
    processSpecglosMapSplit img = Except.ok (specglosSpec img, specglosRough img) ∧
    (specglosSpec img).rows.length = img.rows.length ∧
    (specglosRough img).rows.length = img.rows.length ∧
    (∀ i j r g b a, img.px? i j = some [r, g, b, a] →
      (specglosSpec img).px? i j = some [r, g, b, 255] ∧
      (specglosRough img).px? i j = some [255 - a, 255 - a, 255 - a, 255]) ∧
    (∀ img2 : NpImage, img2.channels ≠ 4 →
      ∃ e, processSpecglosMapSplit img2 = Except.error e) := by
  refine ⟨by simp [processSpecglosMapSplit, h4], by simp [specglosSpec],
    by simp [specglosRough], fun i j r g b a hpx => ?_, fun img2 h2 => ?_⟩
  · constructor
    · rw [show specglosSpec img = ⟨4, img.rows.map (List.map (fun px => px.take 3 ++ [255]))⟩ from rfl,
        px?_map_mk 4 img.channels img.rows _ i j]
      have : (NpImage.mk img.channels img.rows).px? i j = img.px? i j := rfl
      rw [this, hpx]; rfl
    · rw [show specglosRough img = ⟨4, img.rows.map (List.map (fun px =>
        [255 - px.getD 3 0, 255 - px.getD 3 0, 255 - px.getD 3 0, 255]))⟩ from rfl,
        px?_map_mk 4 img.channels img.rows _ i j]
      have : (NpImage.mk img.channels img.rows).px? i j = img.px? i j := rfl
      rw [this, hpx]; rfl
  · exact ⟨"SPECGLOS map processing requires 4 channels, got " ++
      toString img2.channels ++ ".", by simp [processSpecglosMapSplit, h2]⟩

/-- C3 witness: concrete pixel (1,2,3,4) yields spec (1,2,3,255) and
roughness (251,251,251,255). -/
theorem C3_specglos_split_witness :
    (specglosSpec ⟨4, [[[1, 2, 3, 4]]]⟩).px? 0 0 = some [1, 2, 3, 255] ∧
    (specglosRough ⟨4, [[[1, 2, 3, 4]]]⟩).px? 0 0 = some [251, 251, 251, 255] :=
  (C3_specglos_split ⟨4, [[[1, 2, 3, 4]]]⟩ rfl).2.2.2.1 0 0 1 2 3 4 rfl

theorem hasTranslucent_iff (img : NpImage) :
    hasTranslucent img = true ↔
      ∃ i j px, img.px? i j = some px ∧ px.getD 3 0 < 255 := by
  unfold hasTranslucent NpImage.px?
  simp only [List.any_eq_true, decide_eq_true_eq]
  constructor
  · rintro ⟨row, hrow, px, hpx, hlt⟩
    obtain ⟨i, hi⟩ := List.mem_iff_getElem?.1 hrow
    obtain ⟨j, hj⟩ := List.mem_iff_getElem?.1 hpx
    exact ⟨i, j, px, by simp [hi, hj], hlt⟩
  · rintro ⟨i, j, px, hpx, hlt⟩
    cases hrow : img.rows[i]? with
    | none => simp [hrow] at hpx
    | some row =>
      simp only [hrow, Option.bind_some] at hpx
      exact ⟨row, List.mem_iff_getElem?.2 ⟨i, hrow⟩, px,
        List.mem_iff_getElem?.2 ⟨j, hpx⟩, hlt⟩

/-- C4: a 4-channel buffer classified Diffuse in standard mode makes the
worker succeed with a `color` output (RGB passthrough, alpha forced to 255)
and an `alpha` output (original alpha broadcast to R, G, B with alpha 255)
present exactly when some input pixel has alpha strictly below 255; a fully
opaque input yields only the `color` output. -/
theorem C4_diffuse_standard_outputs (fs : RawFs) (p : String) (img : NpImage)
    (hload : (fs p).bind loadImage = some img)
    (h4 : img.channels = 4)
    (hcls : getTextureType (basenameStr p) false = some TextureType.DIFFUSE) :
    processTextureReturnData fs false p =
      ("success", splitextBase (basenameStr p),
        some ([("color", diffuseColor img)] ++
          (if hasTranslucent img then [("alpha", diffuseAlpha img)] else [])),
        none) ∧
    (∀ i j r g b a, img.px? i j = some [r, g, b, a] →
      (diffuseColor img).px? i j = some [r, g, b, 255] ∧
      (diffuseAlpha img).px? i j = some [a, a, a, 255]) ∧
    (hasTranslucent img = true ↔
      ∃ i j px, img.px? i j = some px ∧ px.getD 3 0 < 255) := by
  refine ⟨?_, fun i j r g b a hpx => ?_, hasTranslucent_iff img⟩
  · unfold processTextureReturnData
    rw [hload]
    have hd : processDiffuseMapStandard img = Except.ok (diffuseColor img,
        if hasTranslucent img then some (diffuseAlpha img) else none) := by
      simp [processDiffuseMapStandard, h4]
    simp only [hcls, hd]
    cases hasTranslucent img <;> simp
  · constructor
    · rw [show diffuseColor img =
          ⟨4, img.rows.map (List.map (fun px => px.take 3 ++ [255]))⟩ from rfl,
        px?_map_mk 4 img.channels img.rows _ i j]
      have hsame : (NpImage.mk img.channels img.rows).px? i j = img.px? i j := rfl
      rw [hsame, hpx]; rfl
    · rw [show diffuseAlpha img = ⟨4, img.rows.map (List.map (fun px =>
          [px.getD 3 0, px.getD 3 0, px.getD 3 0, 255]))⟩ from rfl,
        px?_map_mk 4 img.channels img.rows _ i j]
      have hsame : (NpImage.mk img.channels img.rows).px? i j = img.px? i j := rfl
      rw [hsame, hpx]; rfl

/-- C4 witness: the concrete single-file run with one translucent pixel
produces both the color and the alpha output. -/
theorem C4_diffuse_standard_witness :
    processTextureReturnData fsW4 false "t/x_d.png" =
      ("success", "x_d",
        some [("color", diffuseColor imgW4), ("alpha", diffuseAlpha imgW4)],
        none) := by
  have h := (C4_diffuse_standard_outputs fsW4 "t/x_d.png" imgW4 rfl rfl (by decide)).1
  exact h.trans (by decide)

/-- C10: the worker loads the image before classifying the filename, so a
path whose bytes fail to decode always yields a Failed outcome — even when
its filename would classify as None — and a Skipped outcome is only reachable
after a successful decode (and a None classification). -/
theorem C10_load_precedes_classify (fs : RawFs) (tarkinMode : Bool) (p : String) :
    ((fs p).bind loadImage = none →
      (processTextureReturnData fs tarkinMode p).1 = "failed") ∧
    ((processTextureReturnData fs tarkinMode p).1 = "skipped" →
      ∃ img, (fs p).bind loadImage = some img ∧
        getTextureType (basenameStr p) tarkinMode = none) := by
  constructor
  · intro h
    unfold processTextureReturnData
    rw [h]
  · intro h
    unfold processTextureReturnData at h
    cases hload : (fs p).bind loadImage with
    | none => rw [hload] at h; simp at h
    | some img =>
      rw [hload] at h
      refine ⟨img, rfl, ?_⟩
      cases hcls : getTextureType (basenameStr p) tarkinMode with
      | none => rfl
      | some tt =>
        exfalso
        simp only [hcls] at h
        cases tt <;> (repeat' split at h) <;> simp_all

/-- C10 witness: a path whose bytes never decode is Failed. -/
theorem C10_load_precedes_classify_witness :
    (processTextureReturnData fsNone false "a.png").1 = "failed" :=
  (C10_load_precedes_classify fsNone false "a.png").1 rfl

theorem worker_status_cases (fs : RawFs) (tarkinMode : Bool) (p : String) :
    (processTextureReturnData fs tarkinMode p).1 = "success" ∨
    (processTextureReturnData fs tarkinMode p).1 = "failed" ∨
    (processTextureReturnData fs tarkinMode p).1 = "skipped" := by
  unfold processTextureReturnData
  cases hload : (fs p).bind loadImage with
  | none => simp
  | some img =>
    cases hcls : getTextureType (basenameStr p) tarkinMode with
    | none => simp [hcls]
    | some tt =>
      cases tt <;> simp only [hcls] <;> (repeat' split) <;> simp

theorem stageLoop_results (fs : RawFs) (tarkinMode : Bool) (total : Nat)
    (order : List String) : ∀ done : Nat,
    (stageLoop fs tarkinMode total done order).1 =
      order.map (processTextureReturnData fs tarkinMode) := by
  induction order with
  | nil => intro done; rfl
  | cons p rest ih => intro done; simp [stageLoop, ih (done + 1)]

theorem stageLoop_counts (fs : RawFs) (tarkinMode : Bool) (total : Nat)
    (order : List String) : ∀ done : Nat,
    (stageLoop fs tarkinMode total done order).2.1 =
      (order.map (fun p => (processTextureReturnData fs tarkinMode p).1)).count "success" ∧
    (stageLoop fs tarkinMode total done order).2.2.1 =
      (order.map (fun p => (processTextureReturnData fs tarkinMode p).1)).count "failed" ∧
    (stageLoop fs tarkinMode total done order).2.2.2.1 =
      (order.map (fun p => (processTextureReturnData fs tarkinMode p).1)).count "skipped" := by
  induction order with
  | nil => intro done; exact ⟨rfl, rfl, rfl⟩
  | cons p rest ih =>
    intro done
    obtain ⟨ih1, ih2, ih3⟩ := ih (done + 1)
    refine ⟨?_, ?_, ?_⟩
    · by_cases h : (processTextureReturnData fs tarkinMode p).1 = "success" <;>
        simp [stageLoop, List.count_cons, h, ih1]
    · by_cases h : (processTextureReturnData fs tarkinMode p).1 = "failed" <;>
        simp [stageLoop, List.count_cons, h, ih2]
    · by_cases h : (processTextureReturnData fs tarkinMode p).1 = "skipped" <;>
        simp [stageLoop, List.count_cons, h, ih3]

theorem count_three_statuses (l : List String)
    (h : ∀ x ∈ l, x = "success" ∨ x = "failed" ∨ x = "skipped") :
    l.count "success" + l.count "failed" + l.count "skipped" = l.length := by
  induction l with
  | nil => rfl
  | cons a t ih =>
    have ha := h a (List.mem_cons_self a t)
    have ht := ih (fun x hx => h x (List.mem_cons_of_mem a hx))
    rcases ha with rfl | rfl | rfl <;> simp [List.count_cons, ht] <;> omega

theorem runPipeline_tally (fs : RawFs) (tarkinMode : Bool) (inputFolder : String)
    (entries : List DirEntry) (outputFolder : String) (order : List String)
    (cbPresent : Bool) (compression : Nat) (saveOk : String → Bool)
    (hne : discover inputFolder entries ≠ []) :
    (runPipeline fs tarkinMode inputFolder entries outputFolder order cbPresent
        compression saveOk).tally =
      ((stageLoop fs tarkinMode (discover inputFolder entries).length 0 order).2.1,
       (stageLoop fs tarkinMode (discover inputFolder entries).length 0 order).2.2.1,
       (stageLoop fs tarkinMode (discover inputFolder entries).length 0 order).2.2.2.1) := by
  simp [runPipeline, hne]

/-- C5: the tally returned by the pipeline counts input files: for any
completion order of the discovered files, it is independent of everything the
save stage does, its components are exactly the numbers of worker outcomes
with status success, failed and skipped respectively (one outcome per input
file — a file producing two output buffers still counts once), and the three
components sum to the number of discovered supported files. -/
theorem C5_tally_counts_input_files (fs : RawFs) (tarkinMode : Bool)
    (inputFolder : String) (entries : List DirEntry)
    (outputFolder1 outputFolder2 : String) (order : List String)
    (cb1 cb2 : Bool) (comp1 comp2 : Nat) (saveOk1 saveOk2 : String → Bool)
    (hperm : order.Perm (discover inputFolder entries)) :
    (runPipeline fs tarkinMode inputFolder entries outputFolder1 order cb1 comp1 saveOk1).tally =
      (runPipeline fs tarkinMode inputFolder entries outputFolder2 order cb2 comp2 saveOk2).tally ∧
    (runPipeline fs tarkinMode inputFolder entries outputFolder1 order cb1 comp1 saveOk1).tally =
      ((order.map (fun p => (processTextureReturnData fs tarkinMode p).1)).count "success",
       (order.map (fun p => (processTextureReturnData fs tarkinMode p).1)).count "failed",
       (order.map (fun p => (processTextureReturnData fs tarkinMode p).1)).count "skipped") ∧
    (runPipeline fs tarkinMode inputFolder entries outputFolder1 order cb1 comp1 saveOk1).tally.1 +
      (runPipeline fs tarkinMode inputFolder entries outputFolder1 order cb1 comp1 saveOk1).tally.2.1 +
      (runPipeline fs tarkinMode inputFolder entries outputFolder1 order cb1 comp1 saveOk1).tally.2.2 =
      (discover inputFolder entries).length := by
  have hstat : ∀ x ∈ order.map (fun p => (processTextureReturnData fs tarkinMode p).1),
      x = "success" ∨ x = "failed" ∨ x = "skipped" := by
    intro x hx
    obtain ⟨p, _, rfl⟩ := List.mem_map.1 hx
    exact worker_status_cases fs tarkinMode p
  by_cases hemp : discover inputFolder entries = []
  · have hord : order = [] := (hemp ▸ hperm).eq_nil
    subst hord
    simp [runPipeline, hemp]
  · obtain ⟨h1, h2, h3⟩ :=
      stageLoop_counts fs tarkinMode (discover inputFolder entries).length order 0
    have ht1 := runPipeline_tally fs tarkinMode inputFolder entries outputFolder1
      order cb1 comp1 saveOk1 hemp
    have ht2 := runPipeline_tally fs tarkinMode inputFolder entries outputFolder2
      order cb2 comp2 saveOk2 hemp
    refine ⟨ht1.trans ht2.symm, ?_, ?_⟩
    · rw [ht1, h1, h2, h3]
    · rw [ht1, h1, h2, h3]
      show _ + _ + _ = _
      rw [count_three_statuses _ hstat, List.length_map, hperm.length_eq]

/-- C5 witness: a concrete one-file run (whose load fails) has tally
components summing to the number of discovered files. -/
theorem C5_tally_witness :
    (runPipeline fsNone false "in" entriesOne "o" (discover "in" entriesOne)
        false 0 (fun _ => true)).tally.1 +
      (runPipeline fsNone false "in" entriesOne "o" (discover "in" entriesOne)
        false 0 (fun _ => true)).tally.2.1 +
      (runPipeline fsNone false "in" entriesOne "o" (discover "in" entriesOne)
        false 0 (fun _ => true)).tally.2.2 =
      (discover "in" entriesOne).length :=
  (C5_tally_counts_input_files fsNone false "in" entriesOne "o" "o"
    (discover "in" entriesOne) false false 0 0 (fun _ => true) (fun _ => true)
    (List.Perm.refl _)).2.2

theorem stageLoop_events (fs : RawFs) (tarkinMode : Bool) (total : Nat)
    (order : List String) : ∀ done : Nat,
    (stageLoop fs tarkinMode total done order).2.2.2.2 =
      (List.range order.length).map (fun i => (done + i + 1, total)) := by
  induction order with
  | nil => intro done; rfl
  | cons p rest ih =>
    intro done
    simp only [stageLoop]
    rw [ih (done + 1), List.length_cons, List.range_succ_eq_map, List.map_cons,
      List.map_map]
    refine congrArg₂ List.cons (by simp) ?_
    apply List.map_congr_left
    intro a _
    simp only [Function.comp_apply, Prod.mk.injEq, and_true]
    omega

theorem saveLoop_events (saveOk : String → Bool) (total : Nat)
    (ts : List (NpImage × String × Nat)) : ∀ done : Nat,
    (saveLoop saveOk total done ts).2.2.1 =
      (List.range ts.length).map (fun i => (done + i + 1, total)) := by
  induction ts with
  | nil => intro done; rfl
  | cons t rest ih =>
    intro done
    simp only [saveLoop]
    rw [ih (done + 1), List.length_cons, List.range_succ_eq_map, List.map_cons,
      List.map_map]
    refine congrArg₂ List.cons (by simp) ?_
    apply List.map_congr_left
    intro a _
    simp only [Function.comp_apply, Prod.mk.injEq, and_true]
    omega

theorem saveProcessedData_no_callback (outFolder : String) (compression : Nat)
    (results : List WorkerResult) (saveOk : String → Bool) :
    (saveProcessedData outFolder compression results false saveOk).2.1 = [] := by
  unfold saveProcessedData
  by_cases h : results.flatMap (saveTasksOfResult outFolder compression) = [] <;>
    simp [h]

theorem saveProcessedData_events (outFolder : String) (compression : Nat)
    (results : List WorkerResult) (saveOk : String → Bool) :
    (saveProcessedData outFolder compression results true saveOk).2.1 =
      (List.range (results.flatMap (saveTasksOfResult outFolder compression)).length).map
        (fun i => (i + 1, (results.flatMap (saveTasksOfResult outFolder compression)).length)) := by
  unfold saveProcessedData
  by_cases h : results.flatMap (saveTasksOfResult outFolder compression) = []
  · simp [h]
  · simp [h, saveLoop_events]

theorem runPipeline_saveEvents (fs : RawFs) (tarkinMode : Bool)
    (inputFolder : String) (entries : List DirEntry) (outputFolder : String)
    (order : List String) (cbPresent : Bool) (compression : Nat)
    (saveOk : String → Bool) :
    (runPipeline fs tarkinMode inputFolder entries outputFolder order cbPresent
      compression saveOk).saveEvents = [] := by
  by_cases hemp : discover inputFolder entries = []
  · simp [runPipeline, hemp]
  · by_cases hs : (stageLoop fs tarkinMode (discover inputFolder entries).length 0 order).2.1 > 0
    · simp [runPipeline, hemp, hs, saveProcessedData_no_callback]
    · simp [runPipeline, hemp, hs]

theorem runPipeline_processEvents (fs : RawFs) (tarkinMode : Bool)
    (inputFolder : String) (entries : List DirEntry) (outputFolder : String)
    (order : List String) (compression : Nat) (saveOk : String → Bool)
    (hne : discover inputFolder entries ≠ []) :
    (runPipeline fs tarkinMode inputFolder entries outputFolder order true
        compression saveOk).processEvents =
      (List.range order.length).map
        (fun i => (i + 1, (discover inputFolder entries).length)) := by
  simp [runPipeline, hne, stageLoop_events]

/-- C8 (amended): with a progress callback supplied, the processing stage
invokes it exactly once per completed file, with `completed` running from 1
to the file total (hence monotonically non-decreasing) and a stable `total`;
the saving stage never invokes the supplied callback, because `process_all`
forwards `progress_callback=None` to `save_processed_data` — which, only when
handed a callback directly, would fire it once per completed save task. -/
theorem C8_callback_processing_stage_only (fs : RawFs) (tarkinMode : Bool)
    (inputFolder : String) (entries : List DirEntry) (outputFolder : String)
    (order : List String) (compression : Nat) (saveOk : String → Bool)
    (hperm : order.Perm (discover inputFolder entries)) :
    (runPipeline fs tarkinMode inputFolder entries outputFolder order true
        compression saveOk).processEvents =
      (List.range order.length).map (fun i => (i + 1, order.length)) ∧
    (∀ e ∈ (runPipeline fs tarkinMode inputFolder entries outputFolder order true
        compression saveOk).processEvents, e.2 = order.length) ∧
    List.Pairwise (fun e1 e2 : Nat × Nat => e1.1 ≤ e2.1)
      (runPipeline fs tarkinMode inputFolder entries outputFolder order true
        compression saveOk).processEvents ∧
    (runPipeline fs tarkinMode inputFolder entries outputFolder order true
        compression saveOk).saveEvents = [] ∧
    (∀ (results : List WorkerResult) (saveOk2 : String → Bool),
      (saveProcessedData outputFolder compression results true saveOk2).2.1 =
        (List.range (results.flatMap (saveTasksOfResult outputFolder compression)).length).map
          (fun i => (i + 1, (results.flatMap (saveTasksOfResult outputFolder compression)).length))) := by
  refine ⟨?_, ?_, ?_, runPipeline_saveEvents fs tarkinMode inputFolder entries
      outputFolder order true compression saveOk,
    fun results saveOk2 => saveProcessedData_events outputFolder compression results saveOk2⟩
  all_goals by_cases hemp : discover inputFolder entries = []
  case pos =>
    have hord : order = [] := (hemp ▸ hperm).eq_nil
    subst hord
    simp [runPipeline, hemp]
  case neg =>
    rw [runPipeline_processEvents fs tarkinMode inputFolder entries outputFolder
      order compression saveOk hemp, hperm.length_eq]
  case pos =>
    have hord : order = [] := (hemp ▸ hperm).eq_nil
    subst hord
    simp [runPipeline, hemp]
  case neg =>
    intro e he
    rw [runPipeline_processEvents fs tarkinMode inputFolder entries outputFolder
      order compression saveOk hemp] at he
    obtain ⟨i, _, rfl⟩ := List.mem_map.1 he
    rw [hperm.length_eq]
  case pos =>
    have hord : order = [] := (hemp ▸ hperm).eq_nil
    subst hord
    simp [runPipeline, hemp]
  case neg =>
    rw [runPipeline_processEvents fs tarkinMode inputFolder entries outputFolder
      order compression saveOk hemp]
    refine List.pairwise_map.2 ?_
    exact (List.pairwise_lt_range _).imp (fun hab => by omega)

/-- C8 witness: the concrete two-file run with a callback receives exactly
the processing-stage events (1,2), (2,2). -/
theorem C8_callback_witness :
    (runPipeline fsHelmet false "in" entriesHelmet "in/converted_textures"
        (discover "in" entriesHelmet) true 0 (fun _ => true)).processEvents =
      (List.range (discover "in" entriesHelmet).length).map
        (fun i => (i + 1, (discover "in" entriesHelmet).length)) :=
  (C8_callback_processing_stage_only fsHelmet false "in" entriesHelmet
    "in/converted_textures" (discover "in" entriesHelmet) 0 (fun _ => true)
    (List.Perm.refl _)).1

/-- C8 counterexample: in the two-file standard run with a callback supplied,
the save stage completes three save tasks yet delivers no callback event at
all, so the callback is not invoked at least once per completed unit of work
in the saving stage. -/
theorem C8_counterexample_no_save_events :
    (runPipeline fsHelmet false "in" entriesHelmet "in/converted_textures"
        (discover "in" entriesHelmet) true 0 (fun _ => true)).taskPaths.length = 3 ∧
    (runPipeline fsHelmet false "in" entriesHelmet "in/converted_textures"
        (discover "in" entriesHelmet) true 0 (fun _ => true)).saveEvents = [] ∧
    (runPipeline fsHelmet false "in" entriesHelmet "in/converted_textures"
        (discover "in" entriesHelmet) true 0 (fun _ => true)).processEvents =
      [(1, 2), (2, 2)] := by
  decide

/-- C7 counterexample: the run on `helmet_d.png`/`helmet_n.png` writes files
named `helmet_d_color.png`, `helmet_d_alpha.png`, `helmet_n_converted.png` —
`helmet_color.png` is not among them, because the save stage keeps the whole
extension-stripped input filename (role token included) as the stem. -/
theorem C7_counterexample_kept_role_token :
    (runPipeline fsHelmet false "in" entriesHelmet "in/converted_textures"
        (discover "in" entriesHelmet) false 0 (fun _ => true)).writtenPaths.map
        basenameStr =
      ["helmet_d_color.png", "helmet_d_alpha.png", "helmet_n_converted.png"] ∧
    "helmet_color.png" ∉
      (runPipeline fsHelmet false "in" entriesHelmet "in/converted_textures"
        (discover "in" entriesHelmet) false 0 (fun _ => true)).writtenPaths.map
        basenameStr := by
  decide

/-- C7 (amended): the standard-mode run on a folder holding `helmet_d.png`
(4-channel, one pixel alpha 200, rest 255) and `helmet_n.png` (4-channel),
optimize off, writes exactly `helmet_d_color.png`, `helmet_d_alpha.png` and
`helmet_n_converted.png` into the output folder and returns tally (2,0,0). -/
theorem C7_run_writes_stem_suffixed_files :
    (runPipeline fsHelmet false "in" entriesHelmet "in/converted_textures"
        (discover "in" entriesHelmet) false (pngCompression false)
        (fun _ => true)).tally = (2, 0, 0) ∧
    (runPipeline fsHelmet false "in" entriesHelmet "in/converted_textures"
        (discover "in" entriesHelmet) false (pngCompression false)
        (fun _ => true)).writtenPaths =
      ["in/converted_textures/helmet_d_color.png",
       "in/converted_textures/helmet_d_alpha.png",
       "in/converted_textures/helmet_n_converted.png"] := by
  decide

/-- C9: evaluating the embedded GLTF URI computation at the failing input.
For the image URI `textures/helmet_d.png` (Diffuse in Tarkin mode) the code
inserts `_color` before the original `.png` and appends a second `.png`,
recording `converted_textures/helmet_d_color.png.png`, while the save stage
names the actual output file `helmet_d_color.png` via the same
`insert_suffix` — so the recorded URI carries a double extension and cannot
match the written file. -/
theorem C9_gltf_uri_double_extension :
    imageRemap "converted_textures" "textures/helmet_d.png" =
      some "converted_textures/helmet_d_color.png.png" ∧
    insertSuffix "helmet_d.png" "_color" = "helmet_d_color.png" ∧
    "converted_textures/helmet_d_color.png.png" ≠
      "converted_textures/helmet_d_color.png" := by
  decide

theorem drop_length_takeWhile (p : Char → Bool) (l : List Char) :
    l.drop (l.takeWhile p).length = l.dropWhile p := by
  induction l with
  | nil => rfl
  | cons a t ih =>
    by_cases h : p a <;>
      simp [List.takeWhile_cons, List.dropWhile_cons, h, ih]

theorem takeWhile_dots_append (b x : List Char)
    (hb : b.any (fun c => !(c == '.')) = true) :
    (b ++ x).takeWhile (fun c => c == '.') = b.takeWhile (fun c => c == '.') := by
  induction b with
  | nil => simp at hb
  | cons c t ih =>
    by_cases hc : (c == '.') = true
    · have ht : t.any (fun y => !(y == '.')) = true := by
        simpa [List.any_cons, hc] using hb
      simp [List.takeWhile_cons, hc, ih ht]
    · simp [List.takeWhile_cons, hc]

theorem dropWhile_gnp (X : List Char) :
    List.dropWhile (fun c => c != '.') ('g' :: 'n' :: 'p' :: '.' :: X) = '.' :: X := rfl

theorem takeWhile_length_le (p : Char → Bool) (l : List Char) :
    (l.takeWhile p).length ≤ l.length := by
  induction l with
  | nil => simp
  | cons a t ih =>
    by_cases h : p a <;> simp [List.takeWhile_cons, h] <;> omega

theorem splitextBaseL_stem_png (b : List Char)
    (hb : b.any (fun c => !(c == '.')) = true) :
    splitextBaseL (b ++ ['.', 'p', 'n', 'g']) = b := by
  simp only [splitextBaseL]
  rw [takeWhile_dots_append b _ hb]
  have hlen : (b.takeWhile (fun c => c == '.')).length ≤ b.length :=
    takeWhile_length_le _ b
  rw [List.drop_append_eq_append_drop, Nat.sub_eq_zero_of_le hlen,
    drop_length_takeWhile, List.drop_zero]
  have hcond : ((b.dropWhile (fun c => c == '.')) ++ ['.', 'p', 'n', 'g']).any
      (fun c => c == '.') = true := by
    rw [List.any_append]
    simp
  rw [if_pos hcond, List.reverse_append,
    show (['.', 'p', 'n', 'g'] : List Char).reverse = ['g', 'n', 'p', '.'] from rfl]
  show b.takeWhile (fun c => c == '.') ++
    ((List.dropWhile (fun c => c != '.')
      ('g' :: 'n' :: 'p' :: '.' :: (b.dropWhile (fun c => c == '.')).reverse)).drop 1).reverse = b
  rw [dropWhile_gnp]
  show b.takeWhile (fun c => c == '.') ++ (b.dropWhile (fun c => c == '.')).reverse.reverse = b
  rw [List.reverse_reverse]
  exact List.takeWhile_append_dropWhile _ _

theorem insertSuffix_stem_png (b suf : String)
    (hb : b.data.any (fun c => !(c == '.')) = true)
    (hsuf : strStartsWith suf "_" = true) :
    insertSuffix (b ++ ".png") suf = b ++ suf ++ ".png" := by
  have hbase : splitextBase (b ++ ".png") = b := by
    apply String.ext
    show splitextBaseL (b.data ++ ['.', 'p', 'n', 'g']) = b.data
    exact splitextBaseL_stem_png b.data hb
  have hext : splitextExt (b ++ ".png") = ".png" := by
    apply String.ext
    show (b.data ++ ['.', 'p', 'n', 'g']).drop
      (splitextBaseL (b.data ++ ['.', 'p', 'n', 'g'])).length = ['.', 'p', 'n', 'g']
    rw [splitextBaseL_stem_png b.data hb]
    exact List.drop_left _ _
  unfold insertSuffix
  simp only [hbase, hext, hsuf]
  simp

theorem strStartsWith_slash (x : String) :
    strStartsWith x "/" = true ↔ x.data.head? = some '/' := by
  unfold strStartsWith
  cases hx : x.data with
  | nil => simp [startsWithL]
  | cons c cs =>
    show (c == '/' && startsWithL cs []) = true ↔ _
    cases cs <;> simp [startsWithL]

theorem joinPath_inj_arg (outF x y : String)
    (hx : ¬ strStartsWith x "/" = true) (hy : ¬ strStartsWith y "/" = true)
    (h : joinPath outF x = joinPath outF y) : x = y := by
  unfold joinPath at h
  rw [if_neg hx, if_neg hy] at h
  by_cases h0 : outF = ""
  · rw [if_pos h0, if_pos h0] at h; exact h
  · rw [if_neg h0, if_neg h0] at h
    by_cases h1 : outF.data.getLast? = some '/'
    · rw [if_pos h1, if_pos h1] at h
      exact String.ext (List.append_cancel_left (congrArg String.data h))
    · rw [if_neg h1, if_neg h1] at h
      have h2 : (outF ++ "/").data ++ x.data = (outF ++ "/").data ++ y.data :=
        congrArg String.data h
      exact String.ext (List.append_cancel_left h2)

theorem name_not_slash (st suf tail : String) (hne : st.data ≠ [])
    (hh : ¬ st.data.head? = some '/') :
    ¬ strStartsWith (st ++ suf ++ tail) "/" = true := by
  intro hc
  have hhead := (strStartsWith_slash _).1 hc
  cases hst : st.data with
  | nil => exact hne hst
  | cons c cs =>
    have hdata : (st ++ suf ++ tail).data = st.data ++ (suf.data ++ tail.data) := by
      show (st.data ++ suf.data) ++ tail.data = _
      rw [List.append_assoc]
    rw [hdata, hst] at hhead
    apply hh
    rw [hst]
    exact hhead

theorem append_suffix_inj (s1 s2 : String)
    (h1 : s1 ∈ ["_color", "_alpha", "_spec", "_roughness", "_converted"])
    (h2 : s2 ∈ ["_color", "_alpha", "_spec", "_roughness", "_converted"])
    (b1 b2 : String) (h : b1.data ++ s1.data = b2.data ++ s2.data) :
    s1 = s2 ∧ b1 = b2 := by
  fin_cases h1 <;> fin_cases h2 <;>
    first
      | exact ⟨rfl, String.ext (List.append_cancel_right h)⟩
      | (exfalso
         have e1 := congrArg List.getLast? h
         rw [List.getLast?_append_of_ne_nil _ (by decide),
           List.getLast?_append_of_ne_nil _ (by decide)] at e1
         exact absurd e1 (by decide))

theorem keySuffix_mem (k s : String) (h : keySuffix k = some s) :
    s ∈ ["_color", "_alpha", "_spec", "_roughness", "_converted"] := by
  unfold keySuffix at h
  repeat' split at h
  all_goals simp_all

theorem keySuffix_inj (k1 k2 s : String) (h1 : keySuffix k1 = some s)
    (h2 : keySuffix k2 = some s) : k1 = k2 := by
  unfold keySuffix at h1 h2
  repeat' split at h1
  all_goals repeat' split at h2
  all_goals (try exact Option.noConfusion h1)
  all_goals (try exact Option.noConfusion h2)
  all_goals (injection h1 with h1; injection h2 with h2)
  all_goals subst h1
  all_goals (try exact absurd h2 (by decide))
  all_goals subst_vars
  all_goals rfl

theorem suffix_starts_underscore (s : String)
    (h : s ∈ ["_color", "_alpha", "_spec", "_roughness", "_converted"]) :
    strStartsWith s "_" = true := by
  fin_cases h <;> decide

theorem savePath_inj (outF st1 st2 s1 s2 : String)
    (hg1any : st1.data.any (fun c => !(c == '.')) = true)
    (hg1sl : ¬ st1.data.head? = some '/')
    (hg2any : st2.data.any (fun c => !(c == '.')) = true)
    (hg2sl : ¬ st2.data.head? = some '/')
    (hs1 : s1 ∈ ["_color", "_alpha", "_spec", "_roughness", "_converted"])
    (hs2 : s2 ∈ ["_color", "_alpha", "_spec", "_roughness", "_converted"])
    (h : joinPath outF (insertSuffix (st1 ++ ".png") s1) =
      joinPath outF (insertSuffix (st2 ++ ".png") s2)) :
    st1 = st2 ∧ s1 = s2 := by
  rw [insertSuffix_stem_png st1 s1 hg1any (suffix_starts_underscore s1 hs1),
    insertSuffix_stem_png st2 s2 hg2any (suffix_starts_underscore s2 hs2)] at h
  have hne1 : st1.data ≠ [] := by
    intro hnil; rw [hnil] at hg1any; simp at hg1any
  have hne2 : st2.data ≠ [] := by
    intro hnil; rw [hnil] at hg2any; simp at hg2any
  have h2 := joinPath_inj_arg outF _ _
    (name_not_slash st1 s1 ".png" hne1 hg1sl)
    (name_not_slash st2 s2 ".png" hne2 hg2sl) h
  have h3 : (st1.data ++ s1.data) ++ ".png".data =
      (st2.data ++ s2.data) ++ ".png".data := congrArg String.data h2
  have h4 := List.append_cancel_right h3
  obtain ⟨hs, hb⟩ := append_suffix_inj s1 s2 hs1 hs2 st1 st2 h4
  exact ⟨hb, hs⟩

theorem mem_dictTasks_path (outF : String) (comp : Nat) (st : String)
    (d : List (String × NpImage)) (q : String)
    (hq : q ∈ (d.flatMap (fun kv =>
        match keySuffix kv.1 with
        | some suf => [(kv.2, joinPath outF (insertSuffix (st ++ ".png") suf), comp)]
        | none => [])).map (fun t => t.2.1)) :
    ∃ kv ∈ d, ∃ suf, keySuffix kv.1 = some suf ∧
      q = joinPath outF (insertSuffix (st ++ ".png") suf) := by
  simp only [List.mem_map, List.mem_flatMap] at hq
  obtain ⟨t, ⟨kv, hkv, ht⟩, rfl⟩ := hq
  cases hks : keySuffix kv.1 with
  | none => rw [hks] at ht; simp at ht
  | some suf =>
    rw [hks] at ht
    simp only [List.mem_singleton] at ht
    exact ⟨kv, hkv, suf, hks, by rw [ht]⟩

theorem dictTasks_paths_nodup (outF : String) (comp : Nat) (st : String)
    (hany : st.data.any (fun c => !(c == '.')) = true)
    (hsl : ¬ st.data.head? = some '/') :
    ∀ d : List (String × NpImage), (d.map Prod.fst).Nodup →
    ((d.flatMap (fun kv =>
        match keySuffix kv.1 with
        | some suf => [(kv.2, joinPath outF (insertSuffix (st ++ ".png") suf), comp)]
        | none => [])).map (fun t => t.2.1)).Nodup := by
  intro d
  induction d with
  | nil => intro _; simp
  | cons kv rest ih =>
    intro hnd
    rw [List.map_cons, List.nodup_cons] at hnd
    rw [List.flatMap_cons, List.map_append]
    refine List.nodup_append.2 ⟨?_, ih hnd.2, ?_⟩
    · cases hks : keySuffix kv.1 <;> simp [hks]
    · intro q hq1 hq2
      cases hks : keySuffix kv.1 with
      | none => rw [hks] at hq1; simp at hq1
      | some suf =>
        rw [hks] at hq1
        simp only [List.map_cons, List.map_nil, List.mem_singleton] at hq1
        obtain ⟨kv2, hkv2, suf2, hks2, hq⟩ := mem_dictTasks_path outF comp st rest q hq2
        rw [hq1] at hq
        have := (savePath_inj outF st st suf suf2 hany hsl hany hsl
          (keySuffix_mem kv.1 suf hks) (keySuffix_mem kv2.1 suf2 hks2) hq).2
        subst this
        have hk12 : kv.1 = kv2.1 := keySuffix_inj kv.1 kv2.1 suf hks hks2
        exact hnd.1 (hk12 ▸ List.mem_map_of_mem Prod.fst hkv2)

theorem mem_saveTasks_path (outF : String) (comp : Nat) (r : WorkerResult)
    (q : String)
    (hq : q ∈ (saveTasksOfResult outF comp r).map (fun t => t.2.1)) :
    ∃ suf ∈ ["_color", "_alpha", "_spec", "_roughness", "_converted"],
      q = joinPath outF (insertSuffix (r.2.1 ++ ".png") suf) := by
  unfold saveTasksOfResult at hq
  split at hq
  · split at hq
    next d heq =>
      split at hq
      · simp at hq
      · obtain ⟨kv, _, suf, hks, hqq⟩ := mem_dictTasks_path outF comp r.2.1 d q hq
        exact ⟨suf, keySuffix_mem kv.1 suf hks, hqq⟩
    next heq => simp at hq
  · simp at hq

theorem saveTasksOfResult_paths_nodup (outF : String) (comp : Nat)
    (r : WorkerResult)
    (hany : (r.2.1).data.any (fun c => !(c == '.')) = true)
    (hsl : ¬ (r.2.1).data.head? = some '/')
    (hkeys : ∀ d, r.2.2.1 = some d → (d.map Prod.fst).Nodup) :
    ((saveTasksOfResult outF comp r).map (fun t => t.2.1)).Nodup := by
  unfold saveTasksOfResult
  split
  · split
    next d heq =>
      split
      · simp
      · exact dictTasks_paths_nodup outF comp r.2.1 hany hsl d (hkeys d heq)
    next heq => simp
  · simp

theorem worker_stem (fs : RawFs) (tarkinMode : Bool) (p : String) :
    (processTextureReturnData fs tarkinMode p).2.1 =
      splitextBase (basenameStr p) := by
  unfold processTextureReturnData
  cases hload : (fs p).bind loadImage with
  | none => rfl
  | some img =>
    cases hcls : getTextureType (basenameStr p) tarkinMode with
    | none => simp [hcls]
    | some tt =>
      cases tt <;> simp only [hcls] <;> (repeat' split) <;> rfl

theorem worker_dict_keys_nodup (fs : RawFs) (tarkinMode : Bool) (p : String)
    (d : List (String × NpImage))
    (hd : (processTextureReturnData fs tarkinMode p).2.2.1 = some d) :
    (d.map Prod.fst).Nodup := by
  unfold processTextureReturnData at hd
  cases hload : (fs p).bind loadImage with
  | none => rw [hload] at hd; simp at hd
  | some img =>
    rw [hload] at hd
    cases hcls : getTextureType (basenameStr p) tarkinMode with
    | none => simp [hcls] at hd
    | some tt =>
      cases tt <;> simp only [hcls] at hd <;> (repeat' split at hd) <;>
        (try exact Option.noConfusion hd) <;>
        (injection hd with hd; subst hd) <;>
        first
          | exact (by decide : (["color"] : List String).Nodup)
          | exact (by decide : (["color", "alpha"] : List String).Nodup)
          | exact (by decide : (["spec", "roughness"] : List String).Nodup)
          | exact (by decide : (["converted"] : List String).Nodup)
          | exact (by decide : (["roughness"] : List String).Nodup)

theorem saveTasks_paths_nodup (outF : String) (comp : Nat)
    (results : List WorkerResult)
    (hstem : (results.map (fun r => r.2.1)).Nodup)
    (hgood : ∀ r ∈ results, (r.2.1).data.any (fun c => !(c == '.')) = true ∧
      ¬ (r.2.1).data.head? = some '/')
    (hkeys : ∀ r ∈ results, ∀ d, r.2.2.1 = some d → (d.map Prod.fst).Nodup) :
    ((results.flatMap (saveTasksOfResult outF comp)).map
      (fun t => t.2.1)).Nodup := by
  induction results with
  | nil => simp
  | cons r rest ih =>
    rw [List.flatMap_cons, List.map_append]
    rw [List.map_cons, List.nodup_cons] at hstem
    obtain ⟨hr_any, hr_sl⟩ := hgood r (List.mem_cons_self r rest)
    refine List.nodup_append.2 ⟨?_, ?_, ?_⟩
    · exact saveTasksOfResult_paths_nodup outF comp r hr_any hr_sl
        (fun d hd => hkeys r (List.mem_cons_self r rest) d hd)
    · exact ih hstem.2 (fun x hx => hgood x (List.mem_cons_of_mem r hx))
        (fun x hx => hkeys x (List.mem_cons_of_mem r hx))
    · intro q hq1 hq2
      obtain ⟨s1, hs1, rfl⟩ := mem_saveTasks_path outF comp r q hq1
      rw [List.map_flatMap] at hq2
      obtain ⟨r2, hr2, hq2b⟩ := List.mem_flatMap.1 hq2
      obtain ⟨s2, hs2, heq⟩ := mem_saveTasks_path outF comp r2 _ hq2b
      obtain ⟨h2any, h2sl⟩ := hgood r2 (List.mem_cons_of_mem r hr2)
      have hsteq := (savePath_inj outF r.2.1 r2.2.1 s1 s2 hr_any hr_sl
        h2any h2sl hs1 hs2 heq).1
      exact hstem.1 (hsteq ▸ List.mem_map_of_mem (fun x => x.2.1) hr2)

/-- C6 (amended): the save tasks built from the Success outcomes target
pairwise distinct output paths provided the discovered input files have
pairwise distinct stems (the extension-stripped basenames, which for real
non-hidden discovered files contain a non-dot character and no leading
slash); two inputs sharing a stem, such as `x_d.png` and `x_d.jpg`, break
the claim. -/
theorem C6_save_paths_nodup_of_distinct_stems (fs : RawFs) (tarkinMode : Bool)
    (inputFolder : String) (entries : List DirEntry) (outputFolder : String)
    (order : List String) (cbPresent : Bool) (compression : Nat)
    (saveOk : String → Bool)
    (hstem : (order.map (fun p => splitextBase (basenameStr p))).Nodup)
    (hgood : ∀ p ∈ order,
      (splitextBase (basenameStr p)).data.any (fun c => !(c == '.')) = true ∧
      ¬ (splitextBase (basenameStr p)).data.head? = some '/') :
    (runPipeline fs tarkinMode inputFolder entries outputFolder order cbPresent
      compression saveOk).taskPaths.Nodup := by
  by_cases hemp : discover inputFolder entries = []
  · simp [runPipeline, hemp]
  · have htp : (runPipeline fs tarkinMode inputFolder entries outputFolder order
        cbPresent compression saveOk).taskPaths =
        ((stageLoop fs tarkinMode (discover inputFolder entries).length 0
          order).1.flatMap (saveTasksOfResult outputFolder compression)).map
          (fun t => t.2.1) := by
      simp [runPipeline, hemp]
    rw [htp,
      stageLoop_results fs tarkinMode (discover inputFolder entries).length order 0]
    apply saveTasks_paths_nodup
    · have hmm : (order.map (processTextureReturnData fs tarkinMode)).map
          (fun r => r.2.1) = order.map (fun p => splitextBase (basenameStr p)) := by
        rw [List.map_map]
        exact List.map_congr_left (fun p _ => worker_stem fs tarkinMode p)
      rw [hmm]
      exact hstem
    · intro r hr
      obtain ⟨p, hp, rfl⟩ := List.mem_map.1 hr
      rw [worker_stem fs tarkinMode p]
      exact hgood p hp
    · intro r hr d hd
      obtain ⟨p, hp, rfl⟩ := List.mem_map.1 hr
      exact worker_dict_keys_nodup fs tarkinMode p d hd

/-- C6 witness: the two-file helmet run has distinct stems, so all its save
task paths are distinct. -/
theorem C6_save_paths_nodup_witness :
    (runPipeline fsHelmet false "in" entriesHelmet "in/converted_textures"
      (discover "in" entriesHelmet) false 0 (fun _ => true)).taskPaths.Nodup :=
  C6_save_paths_nodup_of_distinct_stems fsHelmet false "in" entriesHelmet
    "in/converted_textures" (discover "in" entriesHelmet) false 0 (fun _ => true)
    (by decide) (by decide)

/-- C6 counterexample: a folder holding `x_d.png` and `x_d.jpg` — distinct
filenames with the same stem — produces two save tasks targeting the same
output path, so the claimed uniqueness fails for this set of filenames. -/
theorem C6_counterexample_shared_stem :
    ¬ (runPipeline fsDup false "in" entriesDup "in/converted_textures"
      (discover "in" entriesDup) false 0 (fun _ => true)).taskPaths.Nodup := by
  decide
